import Mathlib

/-!
# ViaDelay (modules/inc/delay.hpp)

A shallow embedding of the scalar engine state of `class ViaDelay` and of the
member functions that act on it: the member initialisers, `advanceLFSR`, the
edge and button event handlers, and `slowConversionCallback`.

All data members are `int32_t`.  A member is an `Int`; the two's complement
bit pattern of an `Int` is taken with `toU32` (reduction modulo 2^32) and read
back as a signed value with `ofU32`, so that shifts, xor, and, sums and
differences wrap modulo 2^32 exactly where the machine operations do.
-/

namespace Via

/-! ## 32-bit machine arithmetic -/

/-- The 32-bit two's complement bit pattern of a signed value. -/
def toU32 (x : Int) : Nat := (x % 4294967296).toNat

/-- The signed value (`int32_t`) of a 32-bit pattern. -/
def ofU32 (n : Nat) : Int :=
  if n < 2147483648 then (n : Int) else (n : Int) - 4294967296

/-- Reduction of a mathematical integer to the `int32_t` it wraps to. -/
def wrap32 (x : Int) : Int := ofU32 (toU32 x)

/-- The `int32_t` sum `x + y`, wrapping modulo 2^32. -/
def add32 (x y : Int) : Int := wrap32 (x + y)

/-- The `int32_t` difference `x - y`, wrapping modulo 2^32. -/
def sub32 (x y : Int) : Int := wrap32 (x - y)

/-- The `int32_t` left shift `x << k`: the bits shifted past bit 31 are lost. -/
def shl32 (x : Int) (k : Nat) : Int := ofU32 ((toU32 x <<< k) % 4294967296)

/-- The `int32_t` exclusive or `x ^ y`. -/
def xor32 (x y : Int) : Int := ofU32 (toU32 x ^^^ toU32 y)

/-- The `int32_t` conjunction `x & y`. -/
def and32 (x y : Int) : Int := ofU32 (toU32 x &&& toU32 y)

/-- The `int32_t` right shift `x >> k`, an arithmetic (sign-propagating) shift. -/
def sar32 (x : Int) (k : Nat) : Int := x >>> k

/-- Range of an `int32_t`. -/
def isInt32 (x : Int) : Prop := -2147483648 ≤ x ∧ x ≤ 2147483647

instance (x : Int) : Decidable (isInt32 x) := by
  unfold isInt32
  exact inferInstance

/-- Modelled from the spec: the saturation primitive `__USAT(val, sat)` used by
`slowConversionCallback` is not defined in `delay.hpp`.  The spec says the
combined control value is "saturated to a 12-bit range": an unsigned
saturation to `sat` bits clamps a signed value into `0 .. 2^sat - 1`. -/
def USAT (val : Int) (sat : Nat) : Int :=
  if val < 0 then 0
  else if (2 : Int) ^ sat - 1 < val then (2 : Int) ^ sat - 1
  else val

/-! ## Engine state -/

/-- `#define DELAY_BUFFER_SIZE 1` -/
def DELAY_BUFFER_SIZE : Nat := 1

/-- `#define DELAY_LENGTH 4096` -/
def DELAY_LENGTH : Nat := 4096

/-- The scalar data members of `class ViaDelay`, with their default member
initialisers.  (The heap pointer `delayLine`, the UI object and the inherited
platform members are not touched by any function embedded here.) -/
structure ViaDelay where
  runtimeDisplay : Int := 1
  delayTime : Int := 65536
  delayTimeTarget : Int := 0
  delayWrite : Int := 0
  lastReadPosition : Int := 0
  lastSample : Int := 0
  feedbackModOn : Int := 0
  delayModOn : Int := 1
  upsampleCounter : Int := 16
  delayIncrement : Int := 0
  burstCounter : Int := 0
  lfsrState : Int := 1
  deriving DecidableEq, Repr

namespace ViaDelay

/-- The state left by the constructor `ViaDelay::ViaDelay()`: its body links
outputs, sizes the stream buffers and allocates the delay line, and assigns
none of the scalar members, which keep their default member initialisers. -/
def construct : ViaDelay := {}

/-- `void advanceLFSR(void)`:
```
lfsrState ^= lfsrState << 13;
lfsrState ^= lfsrState << 17;
lfsrState ^= lfsrState << 5;
lfsrState &= 4095;
``` -/
def advanceLFSR (s : ViaDelay) : ViaDelay :=
  let s := { s with lfsrState := xor32 s.lfsrState (shl32 s.lfsrState 13) }
  let s := { s with lfsrState := xor32 s.lfsrState (shl32 s.lfsrState 17) }
  let s := { s with lfsrState := xor32 s.lfsrState (shl32 s.lfsrState 5) }
  { s with lfsrState := and32 s.lfsrState 4095 }

/-- `void mainRisingEdgeCallback(void) { burstCounter = delayTime >> 16; }` -/
def mainRisingEdgeCallback (s : ViaDelay) : ViaDelay :=
  { s with burstCounter := sar32 s.delayTime 16 }

/-- `void mainFallingEdgeCallback(void) {}` -/
def mainFallingEdgeCallback (s : ViaDelay) : ViaDelay := s

/-- `void auxRisingEdgeCallback(void) {}` -/
def auxRisingEdgeCallback (s : ViaDelay) : ViaDelay := s

/-- `void auxFallingEdgeCallback(void) {}` -/
def auxFallingEdgeCallback (s : ViaDelay) : ViaDelay := s

/-- `void buttonPressedCallback(void) {}` -/
def buttonPressedCallback (s : ViaDelay) : ViaDelay := s

/-- `void buttonReleasedCallback(void) {}` -/
def buttonReleasedCallback (s : ViaDelay) : ViaDelay := s

/-- The argument handed to `revExpo.convert` in `slowConversionCallback`:
`4095 - __USAT(controls.cv1Value - 2048 + controls.knob1Value, 12)`. -/
def slowConversionArg (cv1Value knob1Value : Int) : Int :=
  sub32 4095 (USAT (add32 (sub32 cv1Value 2048) knob1Value) 12)

/-- `void slowConversionCallback(void)`:
```
controls.updateSlowExtra();
delayTimeTarget = revExpo.convert(4095 - __USAT(controls.cv1Value - 2048 + controls.knob1Value, 12));
delayTimeTarget = fix16_mul(delayTimeTarget, 160000);
```
`revExpo.convert` and `fix16_mul` are declared in other headers and are
parameters here; `cv1Value` and `knob1Value` are the control readings left by
`controls.updateSlowExtra()`. -/
def slowConversionCallback (convert : Int → Int) (fix16_mul : Int → Int → Int)
    (cv1Value knob1Value : Int) (s : ViaDelay) : ViaDelay :=
  let s := { s with delayTimeTarget := convert (slowConversionArg cv1Value knob1Value) }
  { s with delayTimeTarget := fix16_mul s.delayTimeTarget 160000 }

/-- The register update as a closed formula, following the words of the
behavioural description: `(x XOR (x << 5)) AND 4095`. -/
def lfsrSpec (x : Int) : Int := and32 (xor32 x (shl32 x 5)) 4095

end ViaDelay

/-- On bit patterns: xor a value with itself shifted left by `k`, keep the low
12 bits. -/
def mixN (k s : Nat) : Nat := (s ^^^ (s <<< k)) % 4096

end Via

namespace Via

/-! ## Bit-level facts about the 12-bit mixing step -/

theorem testBit_mod_4096 (n i : Nat) :
    (n % 4096).testBit i = (decide (i < 12) && n.testBit i) := by
  have h : (4096 : Nat) = 2 ^ 12 := by norm_num
  rw [h, Nat.testBit_mod_two_pow]

theorem testBit_mod_u32 (n i : Nat) :
    (n % 4294967296).testBit i = (decide (i < 32) && n.testBit i) := by
  have h : (4294967296 : Nat) = 2 ^ 32 := by norm_num
  rw [h, Nat.testBit_mod_two_pow]

theorem testBit_mixN (k s i : Nat) :
    (mixN k s).testBit i
      = (decide (i < 12) && (xor (s.testBit i) (decide (k ≤ i) && s.testBit (i - k)))) := by
  unfold mixN
  rw [testBit_mod_4096, Nat.testBit_xor, Nat.testBit_shiftLeft]

theorem mixN_lt (k s : Nat) : mixN k s < 4096 := Nat.mod_lt _ (by norm_num)

/-- Mixing twice with shift `k` is mixing once with shift `2 * k`: the two
copies of the `k`-shifted bits cancel. -/
theorem mixN_mixN (k s : Nat) : mixN k (mixN k s) = mixN (2 * k) s := by
  apply Nat.eq_of_testBit_eq
  intro i
  simp only [testBit_mixN]
  by_cases h1 : i < 12
  · have e : i - k - k = i - 2 * k := by omega
    have h4 : i - k < 12 := by omega
    by_cases h2 : k ≤ i
    · by_cases h3 : 2 * k ≤ i
      · have h5 : k ≤ i - k := by omega
        simp [h1, h2, h3, h4, h5, e]
      · have h5 : ¬ k ≤ i - k := by omega
        simp [h1, h2, h3, h4, h5]
    · have h3 : ¬ 2 * k ≤ i := by omega
      simp [h1, h2, h3]
  · simp [h1]

/-- A shift by 12 or more leaves nothing inside the 12-bit window. -/
theorem mixN_of_le (k s : Nat) (hk : 12 ≤ k) : mixN k s = s % 4096 := by
  apply Nat.eq_of_testBit_eq
  intro i
  rw [testBit_mixN, testBit_mod_4096]
  by_cases h1 : i < 12
  · have h2 : ¬ k ≤ i := by omega
    simp [h1, h2]
  · simp [h1]

/-- The mixing step reads only the low 12 bits of its argument. -/
theorem mixN_mod (k s : Nat) : mixN k (s % 4096) = mixN k s := by
  apply Nat.eq_of_testBit_eq
  intro i
  simp only [testBit_mixN, testBit_mod_4096]
  by_cases h1 : i < 12
  · have h4 : i - k < 12 := by omega
    simp [h1, h4]
  · simp [h1]

theorem mixN_four (s : Nat) (hs : s < 4096) :
    mixN 5 (mixN 5 (mixN 5 (mixN 5 s))) = s := by
  rw [mixN_mixN, mixN_mixN 5 s, mixN_mixN, mixN_of_le _ _ (by norm_num)]
  exact Nat.mod_eq_of_lt hs

theorem mixN_zero (k : Nat) : mixN k 0 = 0 := by
  simp [mixN]

/-- The low 12 bits after the three 32-bit shift-and-xor steps: the shifts by
13 and by 17 only reach bits 13 and above. -/
theorem three_steps_low (n : Nat) :
    ((n ^^^ (n <<< 13 % 4294967296)
        ^^^ ((n ^^^ (n <<< 13 % 4294967296)) <<< 17 % 4294967296))
      ^^^ ((n ^^^ (n <<< 13 % 4294967296)
        ^^^ ((n ^^^ (n <<< 13 % 4294967296)) <<< 17 % 4294967296)) <<< 5 % 4294967296))
      % 4096
    = mixN 5 n := by
  apply Nat.eq_of_testBit_eq
  intro i
  simp only [testBit_mixN, testBit_mod_4096, testBit_mod_u32, Nat.testBit_xor,
    Nat.testBit_shiftLeft]
  by_cases h1 : i < 12
  · have a1 : ¬ 13 ≤ i := by omega
    have a2 : ¬ 17 ≤ i := by omega
    have a3 : i < 32 := by omega
    have a4 : ¬ 13 ≤ i - 5 := by omega
    have a5 : ¬ 17 ≤ i - 5 := by omega
    have a6 : i - 5 < 32 := by omega
    simp [h1, a1, a2, a3, a4, a5, a6]
  · simp [h1]

theorem one_step_low (n : Nat) :
    (n ^^^ (n <<< 5 % 4294967296)) % 4096 = mixN 5 n := by
  apply Nat.eq_of_testBit_eq
  intro i
  simp only [testBit_mixN, testBit_mod_4096, testBit_mod_u32, Nat.testBit_xor,
    Nat.testBit_shiftLeft]
  by_cases h1 : i < 12
  · have a3 : i < 32 := by omega
    simp [h1, a3]
  · simp [h1]

/-! ## Facts about the 32-bit operations -/

theorem toU32_lt (x : Int) : toU32 x < 4294967296 := by
  unfold toU32
  omega

theorem toU32_ofU32 (n : Nat) (h : n < 4294967296) : toU32 (ofU32 n) = n := by
  unfold toU32 ofU32
  split <;> omega

theorem ofU32_small (n : Nat) (h : n < 2147483648) : ofU32 n = (n : Int) := by
  unfold ofU32
  rw [if_pos h]

theorem toU32_natCast (n : Nat) (h : n < 4294967296) : toU32 (n : Int) = n := by
  unfold toU32
  omega

theorem wrap32_of_isInt32 (x : Int) (h : isInt32 x) : wrap32 x = x := by
  unfold isInt32 at h
  unfold wrap32 toU32 ofU32
  split <;> omega

theorem isInt32_wrap32 (x : Int) : isInt32 (wrap32 x) := by
  unfold isInt32 wrap32 toU32 ofU32
  split <;> omega

theorem xor_lt_u32 (a b : Nat) (ha : a < 4294967296) (hb : b < 4294967296) :
    a ^^^ b < 4294967296 := by
  have h : (4294967296 : Nat) = 2 ^ 32 := by norm_num
  rw [h] at ha hb ⊢
  exact Nat.xor_lt_two_pow ha hb

theorem toU32_shl32 (x : Int) (k : Nat) :
    toU32 (shl32 x k) = (toU32 x <<< k) % 4294967296 := by
  unfold shl32
  exact toU32_ofU32 _ (Nat.mod_lt _ (by norm_num))

theorem toU32_xor32 (x y : Int) : toU32 (xor32 x y) = toU32 x ^^^ toU32 y := by
  unfold xor32
  exact toU32_ofU32 _ (xor_lt_u32 _ _ (toU32_lt x) (toU32_lt y))

theorem and32_4095 (x : Int) : and32 x 4095 = ((toU32 x % 4096 : Nat) : Int) := by
  have h1 : toU32 4095 = 2 ^ 12 - 1 := by decide
  have h2 : (2 : Nat) ^ 12 = 4096 := by norm_num
  unfold and32
  rw [h1, Nat.and_pow_two_sub_one_eq_mod, h2]
  apply ofU32_small
  have := Nat.mod_lt (toU32 x) (show 0 < 4096 by norm_num)
  omega

/-! ## The register update in closed form -/

namespace ViaDelay

theorem advanceLFSR_lfsrState (s : ViaDelay) :
    (advanceLFSR s).lfsrState = ((mixN 5 (toU32 s.lfsrState) : Nat) : Int) := by
  show and32 (xor32 (xor32 (xor32 s.lfsrState (shl32 s.lfsrState 13))
      (shl32 (xor32 s.lfsrState (shl32 s.lfsrState 13)) 17))
      (shl32 (xor32 (xor32 s.lfsrState (shl32 s.lfsrState 13))
      (shl32 (xor32 s.lfsrState (shl32 s.lfsrState 13)) 17)) 5)) 4095 = _
  rw [and32_4095]
  simp only [toU32_xor32, toU32_shl32]
  rw [three_steps_low]

theorem advanceLFSR_eq (s : ViaDelay) :
    advanceLFSR s = { s with lfsrState := ((mixN 5 (toU32 s.lfsrState) : Nat) : Int) } := by
  have h := advanceLFSR_lfsrState s
  cases s
  simp only [advanceLFSR] at h ⊢
  simp only [h]

theorem lfsrSpec_eq (x : Int) : lfsrSpec x = ((mixN 5 (toU32 x) : Nat) : Int) := by
  unfold lfsrSpec
  rw [and32_4095]
  simp only [toU32_xor32, toU32_shl32]
  rw [one_step_low]

end ViaDelay

end Via

namespace Via

namespace ViaDelay

/-! ## Helper facts shared by the results below -/

theorem toU32_of_12bit (x : Int) (h0 : 0 ≤ x) (h1 : x ≤ 4095) :
    toU32 x < 4096 ∧ ((toU32 x : Nat) : Int) = x := by
  unfold toU32
  omega

/-- One advance of a state whose register holds the 12-bit pattern `m`. -/
theorem advanceLFSR_natCast (s : ViaDelay) (m : Nat) (hm : m < 4096) :
    advanceLFSR { s with lfsrState := (m : Int) }
      = { s with lfsrState := ((mixN 5 m : Nat) : Int) } := by
  rw [advanceLFSR_eq]
  have h : toU32 (m : Int) = m := toU32_natCast m (by omega)
  simp only [h]

theorem advanceLFSR_range (s : ViaDelay) :
    0 ≤ (advanceLFSR s).lfsrState ∧ (advanceLFSR s).lfsrState ≤ 4095 := by
  rw [advanceLFSR_lfsrState]
  have := mixN_lt 5 (toU32 s.lfsrState)
  omega

/-- Four advances of a 12-bit register are the identity on the whole state. -/
theorem advanceLFSR_four (s : ViaDelay) (h0 : 0 ≤ s.lfsrState) (h1 : s.lfsrState ≤ 4095) :
    advanceLFSR (advanceLFSR (advanceLFSR (advanceLFSR s))) = s := by
  obtain ⟨hlt, hcast⟩ := toU32_of_12bit s.lfsrState h0 h1
  have hs : s = { s with lfsrState := ((toU32 s.lfsrState : Nat) : Int) } := by
    rw [hcast]
  rw [hs, advanceLFSR_natCast _ _ hlt]
  rw [advanceLFSR_natCast _ _ (mixN_lt _ _)]
  rw [advanceLFSR_natCast _ _ (mixN_lt _ _)]
  rw [advanceLFSR_natCast _ _ (mixN_lt _ _)]
  rw [mixN_four _ hlt]

/-- A nonzero 12-bit register stays nonzero and 12-bit under one advance. -/
theorem advanceLFSR_nonzero (s : ViaDelay) (h0 : 1 ≤ s.lfsrState) (h1 : s.lfsrState ≤ 4095) :
    1 ≤ (advanceLFSR s).lfsrState ∧ (advanceLFSR s).lfsrState ≤ 4095 := by
  obtain ⟨hlt, hcast⟩ := toU32_of_12bit s.lfsrState (by omega) h1
  have hr := advanceLFSR_range s
  refine ⟨?_, hr.2⟩
  by_contra hc
  have hz : (advanceLFSR s).lfsrState = 0 := by omega
  rw [advanceLFSR_lfsrState] at hz
  have hz' : mixN 5 (toU32 s.lfsrState) = 0 := by exact_mod_cast hz
  have h4 := mixN_four (toU32 s.lfsrState) hlt
  rw [hz', mixN_zero, mixN_zero, mixN_zero] at h4
  omega

theorem iterate_advanceLFSR_nonzero (s : ViaDelay) (h0 : 1 ≤ s.lfsrState)
    (h1 : s.lfsrState ≤ 4095) (n : Nat) :
    1 ≤ (advanceLFSR^[n] s).lfsrState ∧ (advanceLFSR^[n] s).lfsrState ≤ 4095 := by
  induction n with
  | zero => exact ⟨h0, h1⟩
  | succ k ih =>
    rw [Function.iterate_succ_apply']
    exact advanceLFSR_nonzero _ ih.1 ih.2

theorem iterate_advanceLFSR_mod_four (s : ViaDelay) (h0 : 0 ≤ s.lfsrState)
    (h1 : s.lfsrState ≤ 4095) (n : Nat) :
    advanceLFSR^[n] s = advanceLFSR^[n % 4] s := by
  induction n using Nat.strong_induction_on with
  | _ n ih =>
    by_cases hn : n < 4
    · rw [Nat.mod_eq_of_lt hn]
    · have e : n = (n - 4) + 4 := by omega
      have e' : n % 4 = (n - 4) % 4 := by omega
      have h4 : advanceLFSR^[4] s = s := advanceLFSR_four s h0 h1
      rw [e', ← ih (n - 4) (by omega)]
      conv_lhs => rw [e, Function.iterate_add_apply, h4]

theorem USAT_12_range (v : Int) : 0 ≤ USAT v 12 ∧ USAT v 12 ≤ 4095 := by
  unfold USAT
  norm_num
  split_ifs <;> omega

theorem USAT_12_eq (v : Int) :
    USAT v 12 = if v < 0 then 0 else if 4095 < v then 4095 else v := by
  unfold USAT
  norm_num

theorem slowConversionArg_eq (cv1Value knob1Value : Int) :
    slowConversionArg cv1Value knob1Value
      = 4095 - USAT (add32 (sub32 cv1Value 2048) knob1Value) 12 := by
  unfold slowConversionArg sub32
  apply wrap32_of_isInt32
  have := USAT_12_range (add32 (wrap32 (cv1Value - 2048)) knob1Value)
  unfold isInt32
  omega

theorem slowConversionArg_nominal (cv1Value knob1Value : Int)
    (hc : 0 ≤ cv1Value ∧ cv1Value ≤ 4095) (hk : 0 ≤ knob1Value ∧ knob1Value ≤ 4095) :
    slowConversionArg cv1Value knob1Value
      = 4095 - USAT (cv1Value - 2048 + knob1Value) 12 := by
  rw [slowConversionArg_eq]
  have e1 : sub32 cv1Value 2048 = cv1Value - 2048 := by
    unfold sub32
    apply wrap32_of_isInt32
    unfold isInt32
    omega
  have e2 : add32 (cv1Value - 2048) knob1Value = cv1Value - 2048 + knob1Value := by
    unfold add32
    apply wrap32_of_isInt32
    unfold isInt32
    omega
  rw [e1, e2]

end ViaDelay

end Via

namespace Via

namespace ViaDelay

theorem sar32_16 (x : Int) : sar32 x 16 = x / 65536 := by
  unfold sar32
  rw [Int.shiftRight_eq_div_pow]
  norm_num

/-! ## The pseudo-random register -/

/-- C1: the register predicate `1 ≤ lfsrState ≤ 4095` holds in the constructed
engine, is preserved by one `advanceLFSR` call from every state satisfying it,
and therefore holds after any number of advances from the constructed engine:
the register never becomes 0. -/
theorem lfsr_nonzero_invariant (s : ViaDelay)
    (h : 1 ≤ s.lfsrState ∧ s.lfsrState ≤ 4095) :
    (1 ≤ construct.lfsrState ∧ construct.lfsrState ≤ 4095)
    ∧ (1 ≤ (advanceLFSR s).lfsrState ∧ (advanceLFSR s).lfsrState ≤ 4095)
    ∧ ∀ n : Nat,
        (1 ≤ (advanceLFSR^[n] construct).lfsrState
          ∧ (advanceLFSR^[n] construct).lfsrState ≤ 4095)
        ∧ (advanceLFSR^[n] construct).lfsrState ≠ 0 := by
  have hc : 1 ≤ construct.lfsrState ∧ construct.lfsrState ≤ 4095 := by decide
  refine ⟨hc, advanceLFSR_nonzero s h.1 h.2, ?_⟩
  intro n
  have hn := iterate_advanceLFSR_nonzero construct hc.1 hc.2 n
  exact ⟨hn, by omega⟩

theorem lfsr_nonzero_invariant_witness :
    (1 ≤ (advanceLFSR { construct with lfsrState := 2048 }).lfsrState
      ∧ (advanceLFSR { construct with lfsrState := 2048 }).lfsrState ≤ 4095)
    ∧ (advanceLFSR^[7] construct).lfsrState ≠ 0 :=
  ⟨(lfsr_nonzero_invariant { construct with lfsrState := 2048 } (by decide)).2.1,
   ((lfsr_nonzero_invariant { construct with lfsrState := 2048 } (by decide)).2.2 7).2⟩

/-- C2: from the seed `lfsrState = 1` the register returns to 1 after a least
number `k ≥ 1` of advances, and that period satisfies `1 < k < 4096` (it is 4). -/
theorem lfsr_period_from_seed :
    ∃ k : Nat, 1 < k ∧ k < 4096 ∧ k = 4
      ∧ construct.lfsrState = 1
      ∧ (advanceLFSR^[k] construct).lfsrState = 1
      ∧ ∀ j : Nat, 1 ≤ j → j < k → (advanceLFSR^[j] construct).lfsrState ≠ 1 := by
  refine ⟨4, by decide, by decide, rfl, by decide, by decide, ?_⟩
  intro j hj1 hj4
  interval_cases j <;> decide

/-- C9: for every `int32_t` register value, `advanceLFSR` leaves `lfsrState`
equal to `(x XOR (x << 5)) AND 4095` and changes no other member; the result is
the 12-bit number `(n XOR (n << 5)) mod 4096` for the bit pattern `n` of `x`,
and is the same for two registers that agree on their low 12 bits. -/
theorem advanceLFSR_refines_lfsrSpec (s : ViaDelay) (_h : isInt32 s.lfsrState) :
    (advanceLFSR s).lfsrState = lfsrSpec s.lfsrState
    ∧ advanceLFSR s = { s with lfsrState := lfsrSpec s.lfsrState }
    ∧ (advanceLFSR s).lfsrState
        = (((toU32 s.lfsrState ^^^ (toU32 s.lfsrState <<< 5)) % 4096 : Nat) : Int)
    ∧ (advanceLFSR s).lfsrState
        = (advanceLFSR { s with lfsrState := and32 s.lfsrState 4095 }).lfsrState
    ∧ ∀ t : ViaDelay, isInt32 t.lfsrState →
        and32 t.lfsrState 4095 = and32 s.lfsrState 4095 →
        (advanceLFSR t).lfsrState = (advanceLFSR s).lfsrState := by
  have key : ∀ u : ViaDelay, (advanceLFSR u).lfsrState
      = ((mixN 5 (toU32 u.lfsrState % 4096) : Nat) : Int) := by
    intro u
    rw [advanceLFSR_lfsrState, mixN_mod]
  refine ⟨?_, ?_, ?_, ?_, ?_⟩
  · rw [advanceLFSR_lfsrState, lfsrSpec_eq]
  · rw [advanceLFSR_eq, lfsrSpec_eq]
  · rw [advanceLFSR_lfsrState]
    rfl
  · rw [key s, advanceLFSR_lfsrState, and32_4095]
    have e : toU32 ((toU32 s.lfsrState % 4096 : Nat) : Int) = toU32 s.lfsrState % 4096 :=
      toU32_natCast _ (by omega)
    simp only [e]
  · intro t _ ht
    rw [and32_4095, and32_4095] at ht
    have ht' : toU32 t.lfsrState % 4096 = toU32 s.lfsrState % 4096 := by exact_mod_cast ht
    rw [key t, key s, ht']

theorem advanceLFSR_refines_lfsrSpec_witness :
    (advanceLFSR { construct with lfsrState := -123456789 }).lfsrState
      = lfsrSpec (-123456789)
    ∧ lfsrSpec (-123456789) = 3979 :=
  ⟨(advanceLFSR_refines_lfsrSpec { construct with lfsrState := -123456789 } (by decide)).1,
   by decide⟩

/-- C10: for every 12-bit register value, four successive `advanceLFSR` calls
restore the state; `advanceLFSR` maps 12-bit registers to 12-bit registers
injectively and surjectively; the sequence of states from a 12-bit seed is
periodic with period dividing 4, so it visits at most 4 distinct values; from
the constructed seed the register runs 1, 33, 1025, 1057, 1. -/
theorem advanceLFSR_order_four (s : ViaDelay)
    (h : 0 ≤ s.lfsrState ∧ s.lfsrState ≤ 4095) :
    advanceLFSR^[4] s = s
    ∧ (0 ≤ (advanceLFSR s).lfsrState ∧ (advanceLFSR s).lfsrState ≤ 4095)
    ∧ (∀ t : ViaDelay, 0 ≤ t.lfsrState ∧ t.lfsrState ≤ 4095 →
        (advanceLFSR t).lfsrState = (advanceLFSR s).lfsrState →
        t.lfsrState = s.lfsrState)
    ∧ (∃ t : ViaDelay, (0 ≤ t.lfsrState ∧ t.lfsrState ≤ 4095)
        ∧ (advanceLFSR t).lfsrState = s.lfsrState)
    ∧ (∀ n : Nat, advanceLFSR^[n] s = advanceLFSR^[n % 4] s)
    ∧ (∀ n : Nat, advanceLFSR^[n] s = s ∨ advanceLFSR^[n] s = advanceLFSR s
        ∨ advanceLFSR^[n] s = advanceLFSR (advanceLFSR s)
        ∨ advanceLFSR^[n] s = advanceLFSR (advanceLFSR (advanceLFSR s)))
    ∧ ((advanceLFSR^[0] construct).lfsrState = 1
        ∧ (advanceLFSR^[1] construct).lfsrState = 33
        ∧ (advanceLFSR^[2] construct).lfsrState = 1025
        ∧ (advanceLFSR^[3] construct).lfsrState = 1057
        ∧ (advanceLFSR^[4] construct).lfsrState = 1) := by
  have h4 : advanceLFSR^[4] s = s := advanceLFSR_four s h.1 h.2
  have hmod := iterate_advanceLFSR_mod_four s h.1 h.2
  refine ⟨h4, advanceLFSR_range s, ?_, ?_, hmod, ?_, ?_⟩
  · intro t ht heq
    obtain ⟨hs1, hs2⟩ := toU32_of_12bit s.lfsrState h.1 h.2
    obtain ⟨ht1, ht2⟩ := toU32_of_12bit t.lfsrState ht.1 ht.2
    rw [advanceLFSR_lfsrState, advanceLFSR_lfsrState] at heq
    have heq' : mixN 5 (toU32 t.lfsrState) = mixN 5 (toU32 s.lfsrState) := by
      exact_mod_cast heq
    have e : toU32 t.lfsrState = toU32 s.lfsrState := by
      rw [← mixN_four _ ht1, ← mixN_four _ hs1, heq']
    rw [← ht2, ← hs2, e]
  · refine ⟨advanceLFSR (advanceLFSR (advanceLFSR s)), advanceLFSR_range _, ?_⟩
    have h4' : advanceLFSR (advanceLFSR (advanceLFSR (advanceLFSR s))) = s := h4
    rw [h4']
  · intro n
    rw [hmod n]
    have hlt : n % 4 < 4 := Nat.mod_lt _ (by norm_num)
    generalize n % 4 = r at hlt
    interval_cases r
    · exact Or.inl rfl
    · exact Or.inr (Or.inl rfl)
    · exact Or.inr (Or.inr (Or.inl rfl))
    · exact Or.inr (Or.inr (Or.inr rfl))
  · decide

theorem advanceLFSR_order_four_witness :
    advanceLFSR^[4] { construct with lfsrState := 4095 }
      = { construct with lfsrState := 4095 }
    ∧ advanceLFSR^[10] { construct with lfsrState := 4095 }
      = advanceLFSR^[2] { construct with lfsrState := 4095 } :=
  ⟨(advanceLFSR_order_four { construct with lfsrState := 4095 } (by decide)).1,
   (advanceLFSR_order_four { construct with lfsrState := 4095 } (by decide)).2.2.2.2.1 10⟩

end ViaDelay

end Via

namespace Via

namespace ViaDelay

/-! ## Construction and the event handlers -/

/-- C8: the freshly constructed engine has active delay length
`delayTime = 65536` (nonzero, one sample in 16.16 fixed point), target length
`delayTimeTarget = 0`, register `lfsrState = 1`, write cursor `delayWrite = 0`
and an idle burst window `burstCounter = 0`. -/
theorem construct_state :
    construct.delayTime = 65536
    ∧ construct.delayTime ≠ 0
    ∧ construct.delayTime = 1 * 2 ^ 16
    ∧ construct.delayTimeTarget = 0
    ∧ construct.lfsrState = 1
    ∧ construct.delayWrite = 0
    ∧ construct.burstCounter = 0 := by
  decide

/-- C3: after `mainRisingEdgeCallback` the countdown `burstCounter` is
`delayTime >> 16`, the floor of `delayTime / 65536`, whatever the countdown
held before; every other member is unchanged; from the constructed default
`delayTime = 65536` the countdown becomes 1. -/
theorem mainRisingEdge_sets_burstCounter (s : ViaDelay) (c : Int) :
    (mainRisingEdgeCallback s).burstCounter = s.delayTime >>> (16 : Nat)
    ∧ (mainRisingEdgeCallback s).burstCounter = ⌊(s.delayTime : ℚ) / 65536⌋
    ∧ (65536 * (mainRisingEdgeCallback s).burstCounter ≤ s.delayTime
        ∧ s.delayTime < 65536 * ((mainRisingEdgeCallback s).burstCounter + 1))
    ∧ (mainRisingEdgeCallback { s with burstCounter := c }).burstCounter
        = (mainRisingEdgeCallback s).burstCounter
    ∧ mainRisingEdgeCallback s = { s with burstCounter := s.delayTime >>> (16 : Nat) }
    ∧ (mainRisingEdgeCallback construct).burstCounter = 1 := by
  have hb : (mainRisingEdgeCallback s).burstCounter = s.delayTime / 65536 :=
    sar32_16 s.delayTime
  refine ⟨rfl, ?_, ?_, rfl, rfl, by decide⟩
  · rw [hb]
    exact_mod_cast (Rat.floor_intCast_div_natCast s.delayTime 65536).symm
  · rw [hb]
    omega

/-- C5 fails as stated: with a non-negative active length below one sample
(`delayTime = 65535`) a rising edge leaves the countdown at 0, even closing a
window that was open (`burstCounter = 7`). -/
theorem mainRisingEdge_may_stay_idle :
    0 ≤ ({ construct with delayTime := 65535, burstCounter := 7 } : ViaDelay).delayTime
    ∧ (mainRisingEdgeCallback
        { construct with delayTime := 65535, burstCounter := 7 }).burstCounter = 0
    ∧ ¬ (∀ s : ViaDelay, 0 ≤ s.delayTime → (mainRisingEdgeCallback s).burstCounter ≠ 0) := by
  refine ⟨by decide, by decide, ?_⟩
  intro hall
  exact hall { construct with delayTime := 65535, burstCounter := 7 } (by decide) (by decide)

/-- C5 (amended): for a non-negative active length, the countdown after
`mainRisingEdgeCallback` is nonzero exactly when `delayTime` is at least 65536
(one whole sample), whatever the countdown held before; it is then positive. -/
theorem mainRisingEdge_opens_window_iff (s : ViaDelay) (h : 0 ≤ s.delayTime) :
    ((mainRisingEdgeCallback s).burstCounter ≠ 0 ↔ 65536 ≤ s.delayTime)
    ∧ (65536 ≤ s.delayTime → 1 ≤ (mainRisingEdgeCallback s).burstCounter)
    ∧ (s.delayTime < 65536 → (mainRisingEdgeCallback s).burstCounter = 0) := by
  have hb : (mainRisingEdgeCallback s).burstCounter = s.delayTime / 65536 :=
    sar32_16 s.delayTime
  rw [hb]
  refine ⟨?_, ?_, ?_⟩
  · constructor
    · intro hne
      by_contra hlt
      exact hne (by omega)
    · intro hge
      omega
  · intro hge
    omega
  · intro hlt
    omega

theorem mainRisingEdge_opens_window_iff_witness :
    (mainRisingEdgeCallback construct).burstCounter ≠ 0 ↔ 65536 ≤ construct.delayTime :=
  (mainRisingEdge_opens_window_iff construct (by decide)).1

/-- C6: `mainFallingEdgeCallback`, `auxRisingEdgeCallback`,
`auxFallingEdgeCallback`, `buttonPressedCallback` and `buttonReleasedCallback`
return the engine state they were given, so every member is unchanged; a
falling edge after a rising edge keeps the countdown the rising edge set;
the main rising edge does change the state. -/
theorem other_callbacks_leave_state (s : ViaDelay) :
    mainFallingEdgeCallback s = s
    ∧ auxRisingEdgeCallback s = s
    ∧ auxFallingEdgeCallback s = s
    ∧ buttonPressedCallback s = s
    ∧ buttonReleasedCallback s = s
    ∧ (mainFallingEdgeCallback s).burstCounter = s.burstCounter
    ∧ (mainFallingEdgeCallback (mainRisingEdgeCallback s)).burstCounter
        = (mainRisingEdgeCallback s).burstCounter
    ∧ mainRisingEdgeCallback construct ≠ construct := by
  refine ⟨rfl, rfl, rfl, rfl, rfl, rfl, rfl, by decide⟩

/-! ## The control mapper input -/

/-- C4: for every pair of `int32_t` control values, with the sum wrapping
modulo 2^32, the argument `4095 - USAT12(cv1Value - 2048 + knob1Value)` lies in
`0 .. 4095`; hence `slowConversionCallback` only reads the transfer function
on that domain: two transfer functions that agree on `0 .. 4095` give the same
engine state. -/
theorem slowConversionArg_in_domain (cv1Value knob1Value : Int)
    (_hc : isInt32 cv1Value) (_hk : isInt32 knob1Value) :
    (0 ≤ slowConversionArg cv1Value knob1Value
      ∧ slowConversionArg cv1Value knob1Value ≤ 4095)
    ∧ ∀ (convert convert2 : Int → Int) (fix16_mul : Int → Int → Int) (s : ViaDelay),
        (∀ a : Int, 0 ≤ a → a ≤ 4095 → convert a = convert2 a) →
        slowConversionCallback convert fix16_mul cv1Value knob1Value s
          = slowConversionCallback convert2 fix16_mul cv1Value knob1Value s := by
  have hr : 0 ≤ slowConversionArg cv1Value knob1Value
      ∧ slowConversionArg cv1Value knob1Value ≤ 4095 := by
    rw [slowConversionArg_eq]
    have := USAT_12_range (add32 (sub32 cv1Value 2048) knob1Value)
    omega
  refine ⟨hr, ?_⟩
  intro convert convert2 fix16_mul s hagree
  unfold slowConversionCallback
  simp only [hagree _ hr.1 hr.2]

theorem slowConversionArg_in_domain_witness :
    (0 ≤ slowConversionArg (-2147483648) 0
      ∧ slowConversionArg (-2147483648) 0 ≤ 4095)
    ∧ slowConversionArg (-2147483648) 0 = 0 :=
  ⟨(slowConversionArg_in_domain (-2147483648) 0 (by decide) (by decide)).1, by decide⟩

/-- C7: for control values in the nominal range `0 .. 4095`, the argument
`4095 - USAT12(cv1Value - 2048 + knob1Value)` never rises when `cv1Value` is
raised with `knob1Value` fixed, nor when `knob1Value` is raised with `cv1Value`
fixed; it is 4095 when `cv1Value + knob1Value ≤ 2048` and 0 when
`cv1Value + knob1Value ≥ 6143`. -/
theorem slowConversionArg_antitone (cv1Value cv1Value2 knob1Value knob1Value2 : Int)
    (hc : 0 ≤ cv1Value ∧ cv1Value ≤ 4095) (hc2 : 0 ≤ cv1Value2 ∧ cv1Value2 ≤ 4095)
    (hk : 0 ≤ knob1Value ∧ knob1Value ≤ 4095) (hk2 : 0 ≤ knob1Value2 ∧ knob1Value2 ≤ 4095) :
    (cv1Value ≤ cv1Value2 →
        slowConversionArg cv1Value2 knob1Value ≤ slowConversionArg cv1Value knob1Value)
    ∧ (knob1Value ≤ knob1Value2 →
        slowConversionArg cv1Value knob1Value2 ≤ slowConversionArg cv1Value knob1Value)
    ∧ (cv1Value + knob1Value ≤ 2048 → slowConversionArg cv1Value knob1Value = 4095)
    ∧ (6143 ≤ cv1Value + knob1Value → slowConversionArg cv1Value knob1Value = 0) := by
  rw [slowConversionArg_nominal cv1Value knob1Value hc hk,
    slowConversionArg_nominal cv1Value2 knob1Value hc2 hk,
    slowConversionArg_nominal cv1Value knob1Value2 hc hk2]
  simp only [USAT_12_eq]
  refine ⟨?_, ?_, ?_, ?_⟩ <;> intro hle <;> split_ifs <;> omega

theorem slowConversionArg_antitone_witness :
    (slowConversionArg 3000 1000 ≤ slowConversionArg 2000 1000)
    ∧ (slowConversionArg 2000 1500 ≤ slowConversionArg 2000 1000)
    ∧ slowConversionArg 2000 48 = 4095
    ∧ slowConversionArg 4095 2048 = 0 :=
  ⟨(slowConversionArg_antitone 2000 3000 1000 1500 (by decide) (by decide) (by decide)
      (by decide)).1 (by decide),
   (slowConversionArg_antitone 2000 3000 1000 1500 (by decide) (by decide) (by decide)
      (by decide)).2.1 (by decide),
   (slowConversionArg_antitone 2000 3000 48 48 (by decide) (by decide) (by decide)
      (by decide)).2.2.1 (by decide),
   (slowConversionArg_antitone 4095 4095 2048 2048 (by decide) (by decide) (by decide)
      (by decide)).2.2.2 (by decide)⟩

end ViaDelay

end Via
